import Mathlib

/-!
Shallow embedding of the go-ipfs IPNS republisher (package `republisher`,
file src/unnamed/part_000) and of the filesystem keystore (package
`keystore`, file src/keystore/keystore.go).

External collaborators — libp2p crypto (`peer.IDFromPrivateKey`,
`ci.UnmarshalPrivateKey`, `PrivKey.Bytes`), the local datastore
(`ds.Get` composed with the `dshelp.NewKeyFromBinary` key transform),
the IPNS key derivation (`namesys.IpnsKeysForID`), the protobuf codecs
(`proto.Unmarshal` into `recpb.Record` and `pb.IpnsEntry`) and the
routing value store (`namesys.PutRecordToRouting`) — are modelled as
fields of an `Env` record of pure functions.  The republisher's own
control flow is translated statement by statement from the source.

Observable effects of a renewal pass (keystore lookups, local record
loads, routing pushes) and of registration (mutex acquire/release) are
recorded in an explicit event trace, so that claims about which side
effects occur, and in which order, become statements about the trace.
-/

/-- Peer identities (`peer.ID`): opaque comparable identifiers. -/
abbrev PeerID := Nat

/-- Private signing keys (`ic.PrivKey`): opaque values. -/
abbrev PrivKey := Nat

/-- Raw byte strings (`[]byte`). -/
abbrev Bytes := List Nat

/-- Content paths (`path.Path`, a string type in the source). -/
abbrev IpfsPath := String

/-- Error values.  `noEntry` is the republisher's `errNoEntry` sentinel,
`noSuchKey` and `keyExists` are the keystore's `ErrNoSuchKey` and
`ErrKeyExists` sentinels, `validation`, `decode` and `crypto` tag the
keystore name-validation errors, `proto.Unmarshal` errors and
`ci.UnmarshalPrivateKey` errors (distinct error objects in the source,
hence distinct constructors here), and `other` covers the rest. -/
inductive Err where
  | noEntry
  | noSuchKey
  | keyExists
  | validation (msg : String)
  | decode (msg : String)
  | crypto (msg : String)
  | other (msg : String)
  deriving DecidableEq, Repr

/-- Wire record `recpb.Record`; only its `Value` field is read
(via `GetValue`) by `getLastVal`. -/
structure DhtRecord where
  value : Bytes
  deriving DecidableEq, Repr

/-- IPNS entry protobuf `pb.IpnsEntry`: `Value` holds the path bytes and
`Sequence` is an optional uint64 field. -/
structure IpnsEntry where
  value : IpfsPath
  sequence : Option Nat
  deriving DecidableEq, Repr

/-- The generated accessor `GetSequence` returns the `Sequence` field,
or zero when the optional field is unset. -/
def IpnsEntry.getSequence (e : IpnsEntry) : Nat :=
  e.sequence.getD 0

/-- External collaborators of the republisher and the keystore,
as pure functions. -/
structure Env where
  idFromPrivateKey : PrivKey → Except Err PeerID
  ksGetById : PeerID → Except Err PrivKey
  ipnsKeysForID : PeerID → String
  dsGet : String → Option Bytes
  unmarshalRecord : Bytes → Except String DhtRecord
  unmarshalIpnsEntry : Bytes → Except String IpnsEntry
  putRecordToRouting : PrivKey → IpfsPath → Nat → Int → PeerID → Except Err Unit
  unmarshalPrivateKey : Bytes → Except String PrivKey
  marshalPrivateKey : PrivKey → Except String Bytes

/-- One nanosecond, the unit of Go `time.Duration`. -/
def Nanosecond : Int := 1

/-- Go `time.Hour` in nanoseconds. -/
def Hour : Int := 3600 * 1000000000

/-- Source: `var DefaultRebroadcastInterval = time.Hour * 4`. -/
def DefaultRebroadcastInterval : Int := 4 * Hour

/-- Source: `const DefaultRecordLifetime = time.Hour * 24`. -/
def DefaultRecordLifetime : Int := 24 * Hour

/-- The `Republisher` struct.  The collaborator handles `r`, `ds`, `ks`
live in `Env`; `entries` is the key set of the Go map
`map[peer.ID]struct{}`, in iteration order. -/
structure Republisher where
  self : PrivKey
  Interval : Int
  RecordLifetime : Int
  entries : List PeerID
  deriving DecidableEq, Repr

/-- Source constructor `NewRepublisher`: empty entry map and the two
default durations. -/
def NewRepublisher (self : PrivKey) : Republisher :=
  { self := self
  , Interval := DefaultRebroadcastInterval
  , RecordLifetime := DefaultRecordLifetime
  , entries := [] }

/-- Key-membership insert of the Go map assignment
`rp.entries[id] = struct\x7b\x7d\x7b\x7d`: inserting a present key leaves
the key set unchanged, a new key is appended. -/
def mapInsert (l : List PeerID) (id : PeerID) : List PeerID :=
  if id ∈ l then l else l ++ [id]

/-- Observable effects.  `lockAcquire`/`lockRelease` are the
`entrylock` mutex operations, `keyLookup` a `ks.GetById` call,
`recordLoad` a local datastore read for an identity, and `push` a
`namesys.PutRecordToRouting` call carrying the record it transmits
(`now` is the `time.Now()` value observed at that renewal). -/
inductive Event where
  | lockAcquire
  | lockRelease
  | keyLookup (id : PeerID)
  | recordLoad (id : PeerID)
  | push (id : PeerID) (p : IpfsPath) (seq : Nat) (now : Int) (eol : Int)
  deriving DecidableEq, Repr

/-- Source `AddName`: acquire `entrylock`, insert the identity, release
the lock (deferred unlock).  Returns the mutex events and the updated
republisher. -/
def AddName (rp : Republisher) (id : PeerID) : List Event × Republisher :=
  ([Event.lockAcquire, Event.lockRelease],
   { rp with entries := mapInsert rp.entries id })

/-- Key resolution step of the pass body (source lines 90–102): derive
the process's own identity from its private key; on error abort; if the
watched identity is the own identity use the configured private key
directly, otherwise look the key up by identity in the keystore. -/
def resolveKey (env : Env) (self : PrivKey) (id : PeerID) :
    List Event × Except Err PrivKey :=
  match env.idFromPrivateKey self with
  | Except.error e => ([], Except.error e)
  | Except.ok selfId =>
    if id = selfId then
      ([], Except.ok self)
    else
      match env.ksGetById id with
      | Except.error e => ([Event.keyLookup id], Except.error e)
      | Except.ok k => ([Event.keyLookup id], Except.ok k)

/-- Source `getLastVal`: read the raw bytes at the derived key (any
datastore failure is mapped to `errNoEntry`), unmarshal the outer
`recpb.Record`, unmarshal its value as a `pb.IpnsEntry`, and return the
entry's path and sequence number. -/
def getLastVal (env : Env) (k : String) : Except Err (IpfsPath × Nat) :=
  match env.dsGet k with
  | none => Except.error Err.noEntry
  | some val =>
    match env.unmarshalRecord val with
    | Except.error m => Except.error (Err.decode m)
    | Except.ok dhtrec =>
      match env.unmarshalIpnsEntry dhtrec.value with
      | Except.error m => Except.error (Err.decode m)
      | Except.ok e => Except.ok (e.value, e.getSequence)

/-- Loop body of source `republishEntries` over the snapshot `ids` of
the entry map, with `n` indexing the clock readings: resolve the key
(abort the pass on error), load the last published value (skip the
identity on `errNoEntry`, abort on any other error), then push the
record with the same payload and sequence number and a fresh expiry
`time.Now().Add(rp.RecordLifetime)` (abort on error). -/
def republishLoop (env : Env) (rp : Republisher) (clock : Nat → Int) :
    List PeerID → Nat → List Event × Except Err Unit
  | [], _ => ([], Except.ok ())
  | id :: rest, n =>
    match resolveKey env rp.self id with
    | (evs, Except.error e) => (evs, Except.error e)
    | (evs, Except.ok priv) =>
      match getLastVal env (env.ipnsKeysForID id) with
      | Except.error Err.noEntry =>
        (evs ++ Event.recordLoad id :: (republishLoop env rp clock rest (n + 1)).1,
         (republishLoop env rp clock rest (n + 1)).2)
      | Except.error e =>
        (evs ++ [Event.recordLoad id], Except.error e)
      | Except.ok (p, seq) =>
        match env.putRecordToRouting priv p seq (clock n + rp.RecordLifetime) id with
        | Except.error e =>
          (evs ++ [Event.recordLoad id,
                   Event.push id p seq (clock n) (clock n + rp.RecordLifetime)],
           Except.error e)
        | Except.ok _ =>
          (evs ++ Event.recordLoad id ::
             Event.push id p seq (clock n) (clock n + rp.RecordLifetime) ::
             (republishLoop env rp clock rest (n + 1)).1,
           (republishLoop env rp clock rest (n + 1)).2)

/-- Source `republishEntries`: one pass over the entry map in its
iteration order. -/
def republishEntries (env : Env) (rp : Republisher) (clock : Nat → Int) :
    List Event × Except Err Unit :=
  republishLoop env rp clock rp.entries 0

/-- Wake sources of the scheduler loop: a ticker tick or the process's
closing channel. -/
inductive Wake where
  | tick
  | closing
  deriving DecidableEq, Repr

/-- Number of ticks the scheduler serves before the first closing
signal. -/
def ticksBeforeClosing : List Wake → Nat
  | [] => 0
  | Wake.closing :: _ => 0
  | Wake.tick :: rest => ticksBeforeClosing rest + 1

/-- Source `Run`: select on the ticker and the closing channel; each
tick runs one pass whose error is only logged (`passResult n` abstracts
the outcome of the pass at tick `n`, such as
`(republishEntries env rp clock).2` against the world at that tick);
the loop returns only on the closing signal.  Result: the outcomes of
the passes run, and whether the loop has returned — `false` means the
wake list ended with the loop still blocked. -/
def Run (passResult : Nat → Except Err Unit) :
    List Wake → Nat → List (Except Err Unit) × Bool
  | [], _ => ([], false)
  | Wake.closing :: _, _ => ([], true)
  | Wake.tick :: rest, n =>
    ((passResult n) :: (Run passResult rest (n + 1)).1,
     (Run passResult rest (n + 1)).2)

/-- Identity an event concerns, if any. -/
def eventId : Event → Option PeerID
  | Event.keyLookup i => some i
  | Event.recordLoad i => some i
  | Event.push i _ _ _ _ => some i
  | Event.lockAcquire => none
  | Event.lockRelease => none

/-- Whether an event is a mutex operation. -/
def isLockEv : Event → Bool
  | Event.lockAcquire => true
  | Event.lockRelease => true
  | _ => false

/-- Formalisation of the snapshot-under-lock reading of the pass: the
pass's trace would contain an acquisition of the registration lock. -/
def passTakesLock (env : Env) (rp : Republisher) (clock : Nat → Int) : Bool :=
  (republishEntries env rp clock).1.any isLockEv

/-- The `FSKeystore` struct: its directory is modelled by the list of
(file name, file bytes) pairs it holds, in directory-listing order. -/
structure FSKeystore where
  files : List (String × Bytes)
  deriving DecidableEq, Repr

/-- Source `validateName`: a key name must be non-empty
(`name == ""`), contain no slash (`strings.Contains(name, "/")`, i.e.
the slash character occurs among its characters), and not begin with a
period (`strings.HasPrefix(name, ".")`, i.e. its first character is a
period). -/
def validateName (name : String) : Except Err Unit :=
  if name = ("") then
    Except.error (Err.validation ("key names must be at least one character"))
  else if '/' ∈ name.data then
    Except.error (Err.validation ("key names may not contain slashes"))
  else if name.data.head? = some '.' then
    Except.error (Err.validation ("key names may not begin with a period"))
  else
    Except.ok ()

/-- Source `FSKeystore.Get`: validate the name, read the key file
(absent file yields `ErrNoSuchKey`), and unmarshal the private key. -/
def FSKeystore.Get (env : Env) (ks : FSKeystore) (name : String) :
    Except Err PrivKey :=
  match validateName name with
  | Except.error e => Except.error e
  | Except.ok _ =>
    match ks.files.lookup name with
    | none => Except.error Err.noSuchKey
    | some data =>
      match env.unmarshalPrivateKey data with
      | Except.error m => Except.error (Err.crypto m)
      | Except.ok k => Except.ok k

/-- Source `FSKeystore.Put`: validate the name, marshal the key, refuse
to overwrite an existing file (`ErrKeyExists`), else create the file. -/
def FSKeystore.Put (env : Env) (ks : FSKeystore) (name : String)
    (k : PrivKey) : Except Err FSKeystore :=
  match validateName name with
  | Except.error e => Except.error e
  | Except.ok _ =>
    match env.marshalPrivateKey k with
    | Except.error m => Except.error (Err.crypto m)
    | Except.ok b =>
      match ks.files.lookup name with
      | some _ => Except.error Err.keyExists
      | none => Except.ok { files := ks.files ++ [(name, b)] }

/-- Source `FSKeystore.Delete`: validate the name, then `os.Remove` the
key file (an error if it does not exist).  Returns the keystore after
the call together with the call's result. -/
def FSKeystore.Delete (ks : FSKeystore) (name : String) :
    FSKeystore × Except Err Unit :=
  match validateName name with
  | Except.error e => (ks, Except.error e)
  | Except.ok _ =>
    match ks.files.lookup name with
    | some _ =>
      ({ files := ks.files.filter (fun p => !(p.1 = name : Bool)) },
       Except.ok ())
    | none => (ks, Except.error (Err.other ("remove: no such file or directory")))

/-- Source `FSKeystore.List`: the names in the keystore directory. -/
def FSKeystore.List (ks : FSKeystore) : List String :=
  ks.files.map Prod.fst

/-- Scan loop of source `GetById` over the listed names, carrying
`lastErr`: a name whose read or identity derivation fails records the
error and the scan continues; a key whose derived identity equals the
wanted identity is returned; when no key matches, `ErrNoSuchKey` is
returned if `lastErr` is still nil, else `lastErr`. -/
def getByIdLoop (env : Env) (ks : FSKeystore) (want : PeerID) :
    List String → Option Err → Except Err PrivKey
  | [], none => Except.error Err.noSuchKey
  | [], some e => Except.error e
  | name :: rest, lastErr =>
    match FSKeystore.Get env ks name with
    | Except.error e => getByIdLoop env ks want rest (some e)
    | Except.ok sk =>
      match env.idFromPrivateKey sk with
      | Except.error e => getByIdLoop env ks want rest (some e)
      | Except.ok id =>
        if want = id then Except.ok sk
        else getByIdLoop env ks want rest lastErr

/-- Source `FSKeystore.GetById`: list the directory and scan it for a
key whose derived identity is the wanted one. -/
def FSKeystore.GetById (env : Env) (ks : FSKeystore) (want : PeerID) :
    Except Err PrivKey :=
  getByIdLoop env ks want (FSKeystore.List ks) none

/-- Per-name outcome of one iteration of the `GetById` scan. -/
inductive NameOutcome where
  | failed (e : Err)
  | matched (sk : PrivKey)
  | unmatched
  deriving DecidableEq, Repr

/-- Outcome of the `GetById` scan body on one listed name: the error of
its failed read or identity derivation, the key when its identity
matches, or `unmatched`. -/
def nameOutcome (env : Env) (ks : FSKeystore) (want : PeerID)
    (name : String) : NameOutcome :=
  match FSKeystore.Get env ks name with
  | Except.error e => NameOutcome.failed e
  | Except.ok sk =>
    match env.idFromPrivateKey sk with
    | Except.error e => NameOutcome.failed e
    | Except.ok id =>
      if want = id then NameOutcome.matched sk else NameOutcome.unmatched

/-- Whether a scan outcome is a match. -/
def isMatch : NameOutcome → Bool
  | NameOutcome.matched _ => true
  | _ => false

/-- Concrete collaborator instance used to exercise the definitions:
identity derivation is the identity function on key numbers, the
keystore resolves identities 1 and 2, the datastore holds one wire
record (sequence 3, path `p`) under the derived key of identity 1, and
the private-key codec rejects exactly the bytes `[9]`. -/
def demoEnv : Env :=
  { idFromPrivateKey := fun k => Except.ok k
  , ksGetById := fun id =>
      if id ≤ 2 then Except.ok (10 + id) else Except.error Err.noSuchKey
  , ipnsKeysForID := fun id => if id = 1 then ("a") else ("b")
  , dsGet := fun k => if k = ("a") then some [3] else none
  , unmarshalRecord := fun b => Except.ok { value := b }
  , unmarshalIpnsEntry := fun b =>
      Except.ok { value := ("p"), sequence := some (b.headD 0) }
  , putRecordToRouting := fun _ _ _ _ _ => Except.ok ()
  , unmarshalPrivateKey := fun b =>
      if b = [9] then Except.error ("bad") else Except.ok (b.headD 0)
  , marshalPrivateKey := fun k => Except.ok [k] }

/-- Concrete republisher: own key 1 (hence own identity 1), default
durations, identities 1 and 2 registered. -/
def demoRp : Republisher :=
  { self := 1
  , Interval := DefaultRebroadcastInterval
  , RecordLifetime := DefaultRecordLifetime
  , entries := [1, 2] }

/-- Constant clock used in concrete runs. -/
def demoClock : Nat → Int := fun _ => 100

/-- Concrete keystore: the file `b` holds undecodable bytes, `x` and
`y` hold the keys 2 and 4. -/
def demoKs : FSKeystore :=
  { files := [(("b"), [9]), (("x"), [2]), (("y"), [4])] }

/-- Concrete pass outcome family in which every pass fails. -/
def demoPass : Nat → Except Err Unit :=
  fun _ => Except.error (Err.other ("pass failed"))

theorem republishLoop_cons_keyErr (env : Env) (rp : Republisher)
    (clock : Nat → Int) (id : PeerID) (rest : List PeerID) (n : Nat)
    (evs : List Event) (e : Err)
    (h : resolveKey env rp.self id = (evs, Except.error e)) :
    republishLoop env rp clock (id :: rest) n = (evs, Except.error e) := by
  simp [republishLoop, h]

theorem republishLoop_cons_noEntry (env : Env) (rp : Republisher)
    (clock : Nat → Int) (id : PeerID) (rest : List PeerID) (n : Nat)
    (evs : List Event) (priv : PrivKey)
    (h1 : resolveKey env rp.self id = (evs, Except.ok priv))
    (h2 : getLastVal env (env.ipnsKeysForID id) = Except.error Err.noEntry) :
    republishLoop env rp clock (id :: rest) n =
      (evs ++ Event.recordLoad id :: (republishLoop env rp clock rest (n + 1)).1,
       (republishLoop env rp clock rest (n + 1)).2) := by
  simp [republishLoop, h1, h2]

theorem republishLoop_cons_err (env : Env) (rp : Republisher)
    (clock : Nat → Int) (id : PeerID) (rest : List PeerID) (n : Nat)
    (evs : List Event) (priv : PrivKey) (e : Err)
    (h1 : resolveKey env rp.self id = (evs, Except.ok priv))
    (h2 : getLastVal env (env.ipnsKeysForID id) = Except.error e)
    (hne : e ≠ Err.noEntry) :
    republishLoop env rp clock (id :: rest) n =
      (evs ++ [Event.recordLoad id], Except.error e) := by
  cases e <;> first
    | exact absurd rfl hne
    | simp [republishLoop, h1, h2]

theorem republishLoop_cons_push (env : Env) (rp : Republisher)
    (clock : Nat → Int) (id : PeerID) (rest : List PeerID) (n : Nat)
    (evs : List Event) (priv : PrivKey) (p : IpfsPath) (seq : Nat)
    (h1 : resolveKey env rp.self id = (evs, Except.ok priv))
    (h2 : getLastVal env (env.ipnsKeysForID id) = Except.ok (p, seq))
    (h3 : env.putRecordToRouting priv p seq (clock n + rp.RecordLifetime) id
            = Except.ok ()) :
    republishLoop env rp clock (id :: rest) n =
      (evs ++ Event.recordLoad id ::
         Event.push id p seq (clock n) (clock n + rp.RecordLifetime) ::
         (republishLoop env rp clock rest (n + 1)).1,
       (republishLoop env rp clock rest (n + 1)).2) := by
  simp [republishLoop, h1, h2, h3]

theorem republishLoop_cons_pushErr (env : Env) (rp : Republisher)
    (clock : Nat → Int) (id : PeerID) (rest : List PeerID) (n : Nat)
    (evs : List Event) (priv : PrivKey) (p : IpfsPath) (seq : Nat) (e : Err)
    (h1 : resolveKey env rp.self id = (evs, Except.ok priv))
    (h2 : getLastVal env (env.ipnsKeysForID id) = Except.ok (p, seq))
    (h3 : env.putRecordToRouting priv p seq (clock n + rp.RecordLifetime) id
            = Except.error e) :
    republishLoop env rp clock (id :: rest) n =
      (evs ++ [Event.recordLoad id,
               Event.push id p seq (clock n) (clock n + rp.RecordLifetime)],
       Except.error e) := by
  simp [republishLoop, h1, h2, h3]

theorem resolveKey_trace (env : Env) (self : PrivKey) (id : PeerID) :
    (resolveKey env self id).1 = [] ∨
    (resolveKey env self id).1 = [Event.keyLookup id] := by
  unfold resolveKey
  cases env.idFromPrivateKey self with
  | error e => simp
  | ok selfId =>
    by_cases h : id = selfId
    · simp [h]
    · cases env.ksGetById id <;> simp [h]

theorem resolveKey_events (env : Env) (self : PrivKey) (id : PeerID) :
    ∀ ev ∈ (resolveKey env self id).1, ev = Event.keyLookup id := by
  intro ev hev
  rcases resolveKey_trace env self id with h | h <;> rw [h] at hev <;>
    simp at hev
  exact hev

theorem republishLoop_append (env : Env) (rp : Republisher)
    (clock : Nat → Int) (pre l2 : List PeerID) : ∀ n : Nat,
    (republishLoop env rp clock pre n).2 = Except.ok () →
    republishLoop env rp clock (pre ++ l2) n =
      ((republishLoop env rp clock pre n).1 ++
         (republishLoop env rp clock l2 (n + pre.length)).1,
       (republishLoop env rp clock l2 (n + pre.length)).2) := by
  induction pre with
  | nil => intro n _; simp [republishLoop]
  | cons id rest ih =>
    intro n hok
    simp only [List.cons_append]
    have harith : n + (id :: rest).length = (n + 1) + rest.length := by
      simp [List.length_cons]; omega
    rcases h1 : resolveKey env rp.self id with ⟨evs, res⟩
    cases res with
    | error e =>
      rw [republishLoop_cons_keyErr env rp clock id rest n evs e h1] at hok
      simp at hok
    | ok priv =>
      rcases h2 : getLastVal env (env.ipnsKeysForID id) with e | pr
      · by_cases hne : e = Err.noEntry
        · subst hne
          rw [republishLoop_cons_noEntry env rp clock id rest n evs priv h1 h2]
            at hok ⊢
          rw [republishLoop_cons_noEntry env rp clock id (rest ++ l2) n evs
                priv h1 h2]
          simp only at hok
          rw [ih (n + 1) hok, harith]
          simp
        · rw [republishLoop_cons_err env rp clock id rest n evs priv e h1 h2
                hne] at hok
          simp at hok
      · rcases pr with ⟨p, seq⟩
        rcases h3 : env.putRecordToRouting priv p seq
            (clock n + rp.RecordLifetime) id with e | u
        · rw [republishLoop_cons_pushErr env rp clock id rest n evs priv p seq
                e h1 h2 h3] at hok
          simp at hok
        · cases u
          rw [republishLoop_cons_push env rp clock id rest n evs priv p seq
                h1 h2 h3] at hok ⊢
          rw [republishLoop_cons_push env rp clock id (rest ++ l2) n evs priv
                p seq h1 h2 h3]
          simp only at hok
          rw [ih (n + 1) hok, harith]
          simp

theorem push_mem_republishLoop (env : Env) (rp : Republisher)
    (clock : Nat → Int) :
    ∀ (ids : List PeerID) (n : Nat) (id : PeerID) (p : IpfsPath) (seq : Nat)
      (now eol : Int),
    Event.push id p seq now eol ∈ (republishLoop env rp clock ids n).1 →
    getLastVal env (env.ipnsKeysForID id) = Except.ok (p, seq) ∧
    eol = now + rp.RecordLifetime ∧ (∃ m, now = clock m) := by
  intro ids
  induction ids with
  | nil => intro n id p seq now eol h; simp [republishLoop] at h
  | cons a rest ih =>
    intro n id p seq now eol h
    rcases h1 : resolveKey env rp.self a with ⟨evs, res⟩
    have hpush : Event.push id p seq now eol ∉ evs := by
      intro hmem
      have hkl := resolveKey_events env rp.self a (Event.push id p seq now eol)
        (by rw [h1]; exact hmem)
      exact Event.noConfusion hkl
    cases res with
    | error e =>
      rw [republishLoop_cons_keyErr env rp clock a rest n evs e h1] at h
      exact absurd h hpush
    | ok priv =>
      rcases h2 : getLastVal env (env.ipnsKeysForID a) with e | pr
      · by_cases hne : e = Err.noEntry
        · subst hne
          rw [republishLoop_cons_noEntry env rp clock a rest n evs priv h1 h2]
            at h
          simp only [List.mem_append, List.mem_cons] at h
          rcases h with h | h | h
          · exact absurd h hpush
          · exact Event.noConfusion h
          · exact ih (n + 1) id p seq now eol h
        · rw [republishLoop_cons_err env rp clock a rest n evs priv e h1 h2
                hne] at h
          simp only [List.mem_append, List.mem_cons, List.not_mem_nil,
            or_false] at h
          rcases h with h | h
          · exact absurd h hpush
          · exact Event.noConfusion h
      · rcases pr with ⟨p0, seq0⟩
        rcases h3 : env.putRecordToRouting priv p0 seq0
            (clock n + rp.RecordLifetime) a with e | u
        · rw [republishLoop_cons_pushErr env rp clock a rest n evs priv p0
                seq0 e h1 h2 h3] at h
          simp only [List.mem_append, List.mem_cons, List.not_mem_nil,
            or_false] at h
          rcases h with h | h | h
          · exact absurd h hpush
          · exact Event.noConfusion h
          · rcases Event.push.inj h with ⟨rfl, rfl, rfl, rfl, rfl⟩
            exact ⟨h2, rfl, ⟨n, rfl⟩⟩
        · cases u
          rw [republishLoop_cons_push env rp clock a rest n evs priv p0 seq0
                h1 h2 h3] at h
          simp only [List.mem_append, List.mem_cons] at h
          rcases h with h | h | h | h
          · exact absurd h hpush
          · exact Event.noConfusion h
          · rcases Event.push.inj h with ⟨rfl, rfl, rfl, rfl, rfl⟩
            exact ⟨h2, rfl, ⟨n, rfl⟩⟩
          · exact ih (n + 1) id p seq now eol h

theorem mem_republishLoop_cases (env : Env) (rp : Republisher)
    (clock : Nat → Int) :
    ∀ (ids : List PeerID) (n : Nat) (ev : Event),
    ev ∈ (republishLoop env rp clock ids n).1 →
    ∃ a, a ∈ ids ∧
      (ev ∈ (resolveKey env rp.self a).1 ∨ ev = Event.recordLoad a ∨
       ∃ p seq m, ev = Event.push a p seq (clock m)
                         (clock m + rp.RecordLifetime)) := by
  intro ids
  induction ids with
  | nil => intro n ev h; simp [republishLoop] at h
  | cons a rest ih =>
    intro n ev h
    rcases h1 : resolveKey env rp.self a with ⟨evs, res⟩
    have hevs : ev ∈ evs →
        ∃ b, b ∈ a :: rest ∧
          (ev ∈ (resolveKey env rp.self b).1 ∨ ev = Event.recordLoad b ∨
           ∃ p seq m, ev = Event.push b p seq (clock m)
                             (clock m + rp.RecordLifetime)) := by
      intro hmem
      exact ⟨a, List.mem_cons_self a rest, Or.inl (by rw [h1]; exact hmem)⟩
    have htail : ev ∈ (republishLoop env rp clock rest (n + 1)).1 →
        ∃ b, b ∈ a :: rest ∧
          (ev ∈ (resolveKey env rp.self b).1 ∨ ev = Event.recordLoad b ∨
           ∃ p seq m, ev = Event.push b p seq (clock m)
                             (clock m + rp.RecordLifetime)) := by
      intro hmem
      obtain ⟨b, hb, hc⟩ := ih (n + 1) ev hmem
      exact ⟨b, List.mem_cons_of_mem a hb, hc⟩
    cases res with
    | error e =>
      rw [republishLoop_cons_keyErr env rp clock a rest n evs e h1] at h
      exact hevs h
    | ok priv =>
      rcases h2 : getLastVal env (env.ipnsKeysForID a) with e | pr
      · by_cases hne : e = Err.noEntry
        · subst hne
          rw [republishLoop_cons_noEntry env rp clock a rest n evs priv h1 h2]
            at h
          simp only [List.mem_append, List.mem_cons] at h
          rcases h with h | h | h
          · exact hevs h
          · exact ⟨a, List.mem_cons_self a rest, Or.inr (Or.inl h)⟩
          · exact htail h
        · rw [republishLoop_cons_err env rp clock a rest n evs priv e h1 h2
                hne] at h
          simp only [List.mem_append, List.mem_cons, List.not_mem_nil,
            or_false] at h
          rcases h with h | h
          · exact hevs h
          · exact ⟨a, List.mem_cons_self a rest, Or.inr (Or.inl h)⟩
      · rcases pr with ⟨p0, seq0⟩
        rcases h3 : env.putRecordToRouting priv p0 seq0
            (clock n + rp.RecordLifetime) a with e | u
        · rw [republishLoop_cons_pushErr env rp clock a rest n evs priv p0
                seq0 e h1 h2 h3] at h
          simp only [List.mem_append, List.mem_cons, List.not_mem_nil,
            or_false] at h
          rcases h with h | h | h
          · exact hevs h
          · exact ⟨a, List.mem_cons_self a rest, Or.inr (Or.inl h)⟩
          · exact ⟨a, List.mem_cons_self a rest,
              Or.inr (Or.inr ⟨p0, seq0, n, h⟩)⟩
        · cases u
          rw [republishLoop_cons_push env rp clock a rest n evs priv p0 seq0
                h1 h2 h3] at h
          simp only [List.mem_append, List.mem_cons] at h
          rcases h with h | h | h | h
          · exact hevs h
          · exact ⟨a, List.mem_cons_self a rest, Or.inr (Or.inl h)⟩
          · exact ⟨a, List.mem_cons_self a rest,
              Or.inr (Or.inr ⟨p0, seq0, n, h⟩)⟩
          · exact htail h

theorem eventId_mem_republishLoop (env : Env) (rp : Republisher)
    (clock : Nat → Int) (ids : List PeerID) (n : Nat) (ev : Event)
    (h : ev ∈ (republishLoop env rp clock ids n).1) :
    ∀ i, eventId ev = some i → i ∈ ids := by
  intro i hid
  obtain ⟨a, ha, hc⟩ := mem_republishLoop_cases env rp clock ids n ev h
  rcases hc with hc | rfl | ⟨p, seq, m, rfl⟩
  · rw [resolveKey_events env rp.self a ev hc] at hid
    simp [eventId] at hid
    rw [← hid]; exact ha
  · simp [eventId] at hid
    rw [← hid]; exact ha
  · simp [eventId] at hid
    rw [← hid]; exact ha

theorem keyLookup_mem_resolveKey (env : Env) (self : PrivKey)
    (selfId id id2 : PeerID)
    (hself : env.idFromPrivateKey self = Except.ok selfId)
    (h : Event.keyLookup id2 ∈ (resolveKey env self id).1) :
    id2 = id ∧ id ≠ selfId := by
  unfold resolveKey at h
  rw [hself] at h
  by_cases hid : id = selfId
  · simp [hid] at h
  · refine ⟨?_, hid⟩
    cases h3 : env.ksGetById id <;> simp [hid, h3] at h <;> exact h

theorem keyLookup_mem_republishLoop (env : Env) (rp : Republisher)
    (clock : Nat → Int) (selfId : PeerID)
    (hself : env.idFromPrivateKey rp.self = Except.ok selfId)
    (ids : List PeerID) (n : Nat) (id2 : PeerID)
    (h : Event.keyLookup id2 ∈ (republishLoop env rp clock ids n).1) :
    id2 ≠ selfId := by
  obtain ⟨a, _, hc⟩ := mem_republishLoop_cases env rp clock ids n _ h
  rcases hc with hc | hc | ⟨p, seq, m, hc⟩
  · obtain ⟨rfl, hns⟩ :=
      keyLookup_mem_resolveKey env rp.self selfId a id2 hself hc
    exact hns
  · exact Event.noConfusion hc
  · exact Event.noConfusion hc

theorem republishLoop_no_lock (env : Env) (rp : Republisher)
    (clock : Nat → Int) (ids : List PeerID) (n : Nat) :
    (republishLoop env rp clock ids n).1.filter isLockEv = [] := by
  rw [List.filter_eq_nil_iff]
  intro ev hev
  obtain ⟨a, _, hc⟩ := mem_republishLoop_cases env rp clock ids n ev hev
  rcases hc with hc | rfl | ⟨p, seq, m, rfl⟩
  · rw [resolveKey_events env rp.self a ev hc]
    simp [isLockEv]
  · simp [isLockEv]
  · simp [isLockEv]

/-- C1: for every identity whose locally cached record decodes to
sequence number S (and payload p), every record a renewal pass pushes to
the routing value store for that identity carries exactly S and p:
`republishEntries` pushes the sequence number it read from the stored
record unchanged, never incremented or decremented. -/
theorem c1_sequence_preserved (env : Env) (rp : Republisher)
    (clock : Nat → Int) (ids : List PeerID) (n : Nat) (id : PeerID)
    (p : IpfsPath) (seq : Nat) (now eol : Int)
    (h : Event.push id p seq now eol ∈ (republishLoop env rp clock ids n).1) :
    getLastVal env (env.ipnsKeysForID id) = Except.ok (p, seq) :=
  (push_mem_republishLoop env rp clock ids n id p seq now eol h).1

theorem c1_witness :
    getLastVal demoEnv (demoEnv.ipnsKeysForID 1) = Except.ok ((("p")), 3) :=
  c1_sequence_preserved demoEnv demoRp demoClock [1, 2] 0 1 ("p") 3 100
    (100 + 24 * Hour) (by decide)

/-- C2: when the pass has processed the identities of `pre` without a
fatal error and key resolution fails for the next identity `a` (either
the own-identity derivation or the keystore lookup errors), the pass
returns that very error at once: its full trace is the trace of `pre`
followed only by the (at most one) lookup event of `a`, so no key
lookup, record load or routing push happens for any identity after the
failing one, and every traced event concerns an identity of `pre` or
`a` itself. -/
theorem c2_fail_fast (env : Env) (rp : Republisher) (clock : Nat → Int)
    (pre post : List PeerID) (a : PeerID) (n : Nat) (evs : List Event)
    (e : Err)
    (hpre : (republishLoop env rp clock pre n).2 = Except.ok ())
    (hres : resolveKey env rp.self a = (evs, Except.error e)) :
    republishLoop env rp clock (pre ++ a :: post) n
      = ((republishLoop env rp clock pre n).1 ++ evs, Except.error e) ∧
    ∀ ev ∈ (republishLoop env rp clock (pre ++ a :: post) n).1,
      ∀ i, eventId ev = some i → i ∈ pre ∨ i = a := by
  have h1 := republishLoop_append env rp clock pre (a :: post) n hpre
  have h2 := republishLoop_cons_keyErr env rp clock a post (n + pre.length)
    evs e hres
  have heq : republishLoop env rp clock (pre ++ a :: post) n
      = ((republishLoop env rp clock pre n).1 ++ evs, Except.error e) := by
    rw [h1, h2]
  refine ⟨heq, ?_⟩
  intro ev hev i hid
  rw [heq] at hev
  simp only [List.mem_append] at hev
  rcases hev with hev | hev
  · exact Or.inl (eventId_mem_republishLoop env rp clock pre n ev hev i hid)
  · have hkl := resolveKey_events env rp.self a ev (by rw [hres]; exact hev)
    rw [hkl] at hid
    simp [eventId] at hid
    exact Or.inr hid.symm

theorem c2_witness :
    republishLoop demoEnv demoRp demoClock ([2] ++ 3 :: [1]) 0
      = ((republishLoop demoEnv demoRp demoClock [2] 0).1 ++
           [Event.keyLookup 3],
         Except.error Err.noSuchKey) :=
  (c2_fail_fast demoEnv demoRp demoClock [2] [1] 3 0 [Event.keyLookup 3]
     Err.noSuchKey rfl rfl).1

/-- C3: `getLastVal` fails with the non-fatal `errNoEntry` exactly when
the local storage holds no value at the derived key, and fails with a
decode error when the stored bytes cannot be parsed as a wire record or
the record's inner payload cannot be parsed; for an identity whose key
resolved, the pass treats `errNoEntry` as nothing-to-renew and
continues with the remaining identities without a push for that
identity and with the remaining identities' result, while a decode
error aborts the pass and is surfaced. -/
theorem c3_noentry_decode (env : Env) (rp : Republisher)
    (clock : Nat → Int) (a : PeerID) (rest : List PeerID) (n : Nat)
    (evs : List Event) (priv : PrivKey)
    (hkey : resolveKey env rp.self a = (evs, Except.ok priv)) :
    (∀ k, getLastVal env k = Except.error Err.noEntry ↔ env.dsGet k = none) ∧
    (∀ k b m, env.dsGet k = some b →
       env.unmarshalRecord b = Except.error m →
       getLastVal env k = Except.error (Err.decode m)) ∧
    (∀ k b rec m, env.dsGet k = some b →
       env.unmarshalRecord b = Except.ok rec →
       env.unmarshalIpnsEntry rec.value = Except.error m →
       getLastVal env k = Except.error (Err.decode m)) ∧
    (getLastVal env (env.ipnsKeysForID a) = Except.error Err.noEntry →
       republishLoop env rp clock (a :: rest) n
         = (evs ++ Event.recordLoad a ::
              (republishLoop env rp clock rest (n + 1)).1,
            (republishLoop env rp clock rest (n + 1)).2)) ∧
    (∀ m, getLastVal env (env.ipnsKeysForID a)
            = Except.error (Err.decode m) →
       republishLoop env rp clock (a :: rest) n
         = (evs ++ [Event.recordLoad a], Except.error (Err.decode m))) := by
  refine ⟨?_, ?_, ?_, ?_, ?_⟩
  · intro k
    rcases hd : env.dsGet k with _ | val
    · simp [getLastVal, hd]
    · rcases hr : env.unmarshalRecord val with m | rec
      · simp [getLastVal, hd, hr]
      · rcases he2 : env.unmarshalIpnsEntry rec.value with m | ent <;>
          simp [getLastVal, hd, hr, he2]
  · intro k b m hd hr
    simp [getLastVal, hd, hr]
  · intro k b rec m hd hr he2
    simp [getLastVal, hd, hr, he2]
  · intro hne
    exact republishLoop_cons_noEntry env rp clock a rest n evs priv hkey hne
  · intro m hdec
    exact republishLoop_cons_err env rp clock a rest n evs priv
      (Err.decode m) hkey hdec (by simp)

theorem c3_witness :
    getLastVal demoEnv ("zzz") = Except.error Err.noEntry ∧
    republishLoop demoEnv demoRp demoClock [2] 0
      = ([Event.keyLookup 2] ++ Event.recordLoad 2 ::
           (republishLoop demoEnv demoRp demoClock [] 1).1,
         (republishLoop demoEnv demoRp demoClock [] 1).2) := by
  have h := c3_noentry_decode demoEnv demoRp demoClock 2 [] 0
    [Event.keyLookup 2] 12 rfl
  exact ⟨(h.1 ("zzz")).mpr rfl, h.2.2.2.1 rfl⟩

/-- C4: when the watched identity equals the identity derived from the
process's own private key, key resolution uses the configured private
key directly and performs no keystore lookup; dually, every keystore
lookup event of a pass concerns an identity different from the
process's own. -/
theorem c4_own_key_shortcut (env : Env) (rp : Republisher)
    (clock : Nat → Int) (selfId : PeerID)
    (hself : env.idFromPrivateKey rp.self = Except.ok selfId) :
    resolveKey env rp.self selfId = ([], Except.ok rp.self) ∧
    ∀ (ids : List PeerID) (n : Nat) (id2 : PeerID),
      Event.keyLookup id2 ∈ (republishLoop env rp clock ids n).1 →
      id2 ≠ selfId := by
  constructor
  · unfold resolveKey
    rw [hself]
    simp
  · intro ids n id2 h
    exact keyLookup_mem_republishLoop env rp clock selfId hself ids n id2 h

theorem c4_witness :
    resolveKey demoEnv demoRp.self 1 = ([], Except.ok demoRp.self) :=
  (c4_own_key_shortcut demoEnv demoRp demoClock 1 rfl).1

/-- C5: every record pushed by a renewal carries an expiry equal to the
`time.Now()` value observed at that renewal plus the configured record
lifetime — hence, for a positive lifetime such as the default, strictly
later than the time of renewal — and `NewRepublisher` defaults the
interval to 4 hours and the record lifetime to 24 hours. -/
theorem c5_expiry_and_defaults (env : Env) (rp : Republisher)
    (clock : Nat → Int) (ids : List PeerID) (n : Nat) (id : PeerID)
    (p : IpfsPath) (seq : Nat) (now eol : Int)
    (hmem : Event.push id p seq now eol
              ∈ (republishLoop env rp clock ids n).1) :
    eol = now + rp.RecordLifetime ∧
    (0 < rp.RecordLifetime → now < eol) ∧
    ∀ s, (NewRepublisher s).Interval = 4 * Hour ∧
         (NewRepublisher s).RecordLifetime = 24 * Hour := by
  have h := push_mem_republishLoop env rp clock ids n id p seq now eol hmem
  refine ⟨h.2.1, ?_, fun s => ⟨rfl, rfl⟩⟩
  intro hpos
  rw [h.2.1]
  omega

theorem c5_witness :
    (100 : Int) + 24 * Hour = 100 + demoRp.RecordLifetime ∧
    (100 : Int) < 100 + 24 * Hour := by
  have h := c5_expiry_and_defaults demoEnv demoRp demoClock [1, 2] 0 1
    ("p") 3 100 (100 + 24 * Hour) (by decide)
  exact ⟨h.1, h.2.1 (by decide)⟩

/-- C6 counterexample: a concrete pass that performs I/O (its trace has
four events: a record load, a push, a keystore lookup and another
record load) contains no acquisition of the registration lock at all —
the pass does not copy the membership under `entrylock`; it ranges over
the live map without taking the lock. -/
theorem c6_counterexample :
    passTakesLock demoEnv demoRp demoClock = false ∧
    (republishEntries demoEnv demoRp demoClock).1.length = 4 := by
  exact ⟨rfl, rfl⟩

/-- C6 (amended): a renewal pass iterates the Watch Set membership
without acquiring the registration lock and without copying it under
the lock — its trace never contains a mutex event — whereas
registration (`AddName`) is exactly the operation that acquires and
releases `entrylock`. -/
theorem c6_no_lock_in_pass (env : Env) (rp : Republisher)
    (clock : Nat → Int) (rp2 : Republisher) (id : PeerID) :
    (republishEntries env rp clock).1.filter isLockEv = [] ∧
    (AddName rp2 id).1 = [Event.lockAcquire, Event.lockRelease] :=
  ⟨republishLoop_no_lock env rp clock rp.entries 0, rfl⟩

theorem c6_witness :
    (republishEntries demoEnv demoRp demoClock).1.filter isLockEv = [] ∧
    (AddName demoRp 1).1 = [Event.lockAcquire, Event.lockRelease] :=
  c6_no_lock_in_pass demoEnv demoRp demoClock demoRp 1

/-- C7: `AddName` is idempotent — registering a present identity leaves
the membership unchanged, registering a new identity appends exactly
that identity — membership after registration is the old membership
plus the new identity, no member is ever removed, and any sequence of
registrations starting from `NewRepublisher` yields a duplicate-free
membership. -/
theorem c7_addname_set (rp : Republisher) (id : PeerID) (self : PrivKey)
    (regs : List PeerID) :
    (id ∈ rp.entries → ((AddName rp id).2).entries = rp.entries) ∧
    (id ∉ rp.entries → ((AddName rp id).2).entries = rp.entries ++ [id]) ∧
    (∀ x, x ∈ ((AddName rp id).2).entries ↔ x ∈ rp.entries ∨ x = id) ∧
    (∀ x, x ∈ rp.entries → x ∈ ((AddName rp id).2).entries) ∧
    (regs.foldl (fun s i => (AddName s i).2) (NewRepublisher self)).entries.Nodup := by
  refine ⟨?_, ?_, ?_, ?_, ?_⟩
  · intro h
    simp [AddName, mapInsert, h]
  · intro h
    simp [AddName, mapInsert, h]
  · intro x
    by_cases h : id ∈ rp.entries
    · simp only [AddName, mapInsert, if_pos h]
      constructor
      · exact Or.inl
      · rintro (hx | rfl)
        · exact hx
        · exact h
    · simp [AddName, mapInsert, h]
  · intro x hx
    by_cases h : id ∈ rp.entries <;> simp [AddName, mapInsert, h, hx]
  · have key : ∀ (l : List PeerID) (s : Republisher), s.entries.Nodup →
        (l.foldl (fun s i => (AddName s i).2) s).entries.Nodup := by
      intro l
      induction l with
      | nil => intro s hs; exact hs
      | cons i rest ih =>
        intro s hs
        simp only [List.foldl_cons]
        apply ih
        by_cases h : i ∈ s.entries
        · simpa [AddName, mapInsert, h] using hs
        · simp only [AddName, mapInsert, if_neg h]
          simp [List.nodup_append, hs, h]
    exact key regs (NewRepublisher self) (by simp [NewRepublisher])

theorem c7_witness :
    ((AddName demoRp 1).2).entries = demoRp.entries ∧
    (([1, 2, 1] : List PeerID).foldl (fun s i => (AddName s i).2)
       (NewRepublisher 1)).entries.Nodup := by
  have h := c7_addname_set demoRp 1 1 [1, 2, 1]
  exact ⟨h.1 (by decide), h.2.2.2.2⟩

/-- C8: the scheduler loop serves exactly the ticks that precede the
first closing signal — one pass attempt per tick, whatever each pass's
outcome, so a failed pass never stops the loop — and the loop has
returned precisely when the closing signal occurs in the wake sequence;
the pass outcomes themselves are returned to nobody (they are only
logged): `Run`'s result carries no error of its own. -/
theorem c8_run_swallows_errors (f : Nat → Except Err Unit)
    (wakes : List Wake) (n : Nat) :
    Run f wakes n
      = ((List.range' n (ticksBeforeClosing wakes)).map f,
         decide (Wake.closing ∈ wakes)) ∧
    ((Run f wakes n).2 = true ↔ Wake.closing ∈ wakes) := by
  have key : ∀ (ws : List Wake) (m : Nat),
      Run f ws m
        = ((List.range' m (ticksBeforeClosing ws)).map f,
           decide (Wake.closing ∈ ws)) := by
    intro ws
    induction ws with
    | nil => intro m; simp [Run, ticksBeforeClosing]
    | cons w rest ih =>
      intro m
      cases w with
      | closing => simp [Run, ticksBeforeClosing]
      | tick =>
        simp [Run, ticksBeforeClosing, ih (m + 1), List.range'_succ]
  refine ⟨key wakes n, ?_⟩
  rw [key wakes n]
  simp

theorem validateName_ok_or (name : String) :
    validateName name = Except.ok () ∨
    ∃ m, validateName name = Except.error (Err.validation m) := by
  unfold validateName
  by_cases h1 : name = ("")
  · simp [h1]
  · by_cases h2 : '/' ∈ name.data
    · simp [h1, h2]
    · by_cases h3 : name.data.head? = some '.' <;> simp [h1, h2, h3]

/-- C9: `FSKeystore.Get` returns `ErrNoSuchKey` exactly when the name
validates and no key file of that name exists; a name is rejected
exactly when it is empty, contains a slash, or begins with a period;
and for every invalid name, `Get`, `Put` and `Delete` all return the
validation error — `Get` without consulting the stored files (its
result is the same for any directory contents), `Put` and `Delete`
without modifying the store. -/
theorem c9_keystore_validation (env : Env)
    (files files2 : List (String × Bytes)) (name : String) (k : PrivKey) :
    (FSKeystore.Get env { files := files } name = Except.error Err.noSuchKey
       ↔ (validateName name = Except.ok () ∧ files.lookup name = none)) ∧
    ((∃ e, validateName name = Except.error e) ↔
       (name = ("") ∨ '/' ∈ name.data ∨ name.data.head? = some '.')) ∧
    (∀ e, validateName name = Except.error e →
       FSKeystore.Get env { files := files } name = Except.error e ∧
       FSKeystore.Get env { files := files } name
         = FSKeystore.Get env { files := files2 } name ∧
       FSKeystore.Put env { files := files } name k = Except.error e ∧
       FSKeystore.Delete { files := files } name
         = ({ files := files }, Except.error e)) := by
  refine ⟨?_, ?_, ?_⟩
  · rcases validateName_ok_or name with hv | ⟨m, hv⟩
    · rcases hl : files.lookup name with _ | data
      · simp [FSKeystore.Get, hv, hl]
      · rcases hu : env.unmarshalPrivateKey data with m2 | sk <;>
          simp [FSKeystore.Get, hv, hl, hu]
    · simp [FSKeystore.Get, hv]
  · unfold validateName
    by_cases h1 : name = ("")
    · simp [h1]
    · by_cases h2 : '/' ∈ name.data
      · simp [h1, h2]
      · by_cases h3 : name.data.head? = some '.' <;> simp [h1, h2, h3]
  · intro e he
    refine ⟨?_, ?_, ?_, ?_⟩ <;>
      simp [FSKeystore.Get, FSKeystore.Put, FSKeystore.Delete, he]

theorem c9_witness :
    FSKeystore.Get demoEnv demoKs ("")
      = Except.error (Err.validation ("key names must be at least one character")) ∧
    FSKeystore.Get demoEnv { files := [] } ("zz")
      = Except.error Err.noSuchKey := by
  have h1 := c9_keystore_validation demoEnv demoKs.files [] ("") 0
  have h2 := c9_keystore_validation demoEnv [] [] ("zz") 0
  exact ⟨(h1.2.2 (Err.validation ("key names must be at least one character"))
            rfl).1,
         h2.1.mpr ⟨rfl, rfl⟩⟩

theorem getByIdLoop_cons_eq (env : Env) (ks : FSKeystore) (want : PeerID)
    (name : String) (rest : List String) (acc : Option Err) :
    getByIdLoop env ks want (name :: rest) acc =
      match nameOutcome env ks want name with
      | NameOutcome.failed e => getByIdLoop env ks want rest (some e)
      | NameOutcome.matched sk => Except.ok sk
      | NameOutcome.unmatched => getByIdLoop env ks want rest acc := by
  rcases hg : FSKeystore.Get env ks name with e | sk
  · simp [getByIdLoop, nameOutcome, hg]
  · rcases hi : env.idFromPrivateKey sk with e | id
    · simp [getByIdLoop, nameOutcome, hg, hi]
    · by_cases hw : want = id <;> simp [getByIdLoop, nameOutcome, hg, hi, hw]

theorem getByIdLoop_all_unmatched (env : Env) (ks : FSKeystore)
    (want : PeerID) :
    ∀ (names : List String) (acc : Option Err),
    (∀ m ∈ names, nameOutcome env ks want m = NameOutcome.unmatched) →
    getByIdLoop env ks want names acc =
      (match acc with
       | none => Except.error Err.noSuchKey
       | some e => Except.error e) := by
  intro names
  induction names with
  | nil => intro acc _; cases acc <;> rfl
  | cons name rest ih =>
    intro acc h
    rw [getByIdLoop_cons_eq, h name (List.mem_cons_self name rest)]
    exact ih acc (fun m hm => h m (List.mem_cons_of_mem name hm))

theorem getByIdLoop_matched (env : Env) (ks : FSKeystore) (want : PeerID)
    (sk : PrivKey) (name : String) (post : List String) :
    ∀ (pre : List String) (acc : Option Err),
    (∀ m ∈ pre, isMatch (nameOutcome env ks want m) = false) →
    nameOutcome env ks want name = NameOutcome.matched sk →
    getByIdLoop env ks want (pre ++ name :: post) acc = Except.ok sk := by
  intro pre
  induction pre with
  | nil =>
    intro acc _ hm
    rw [List.nil_append, getByIdLoop_cons_eq, hm]
  | cons q qs ih =>
    intro acc hpre hm
    rw [List.cons_append, getByIdLoop_cons_eq]
    rcases ho : nameOutcome env ks want q with e | sk2 | _
    · simp only
      exact ih (some e) (fun m hmm => hpre m (List.mem_cons_of_mem q hmm)) hm
    · have hq := hpre q (List.mem_cons_self q qs)
      rw [ho] at hq
      simp [isMatch] at hq
    · simp only
      exact ih acc (fun m hmm => hpre m (List.mem_cons_of_mem q hmm)) hm

theorem getByIdLoop_failed_last (env : Env) (ks : FSKeystore)
    (want : PeerID) (e : Err) (name : String) (post : List String) :
    ∀ (pre : List String) (acc : Option Err),
    (∀ m ∈ pre, isMatch (nameOutcome env ks want m) = false) →
    nameOutcome env ks want name = NameOutcome.failed e →
    (∀ m ∈ post, nameOutcome env ks want m = NameOutcome.unmatched) →
    getByIdLoop env ks want (pre ++ name :: post) acc = Except.error e := by
  intro pre
  induction pre with
  | nil =>
    intro acc _ hf hpost
    rw [List.nil_append, getByIdLoop_cons_eq, hf]
    exact getByIdLoop_all_unmatched env ks want post (some e) hpost
  | cons q qs ih =>
    intro acc hpre hf hpost
    rw [List.cons_append, getByIdLoop_cons_eq]
    rcases ho : nameOutcome env ks want q with e2 | sk2 | _
    · simp only
      exact ih (some e2) (fun m hmm => hpre m (List.mem_cons_of_mem q hmm))
        hf hpost
    · have hq := hpre q (List.mem_cons_self q qs)
      rw [ho] at hq
      simp [isMatch] at hq
    · simp only
      exact ih acc (fun m hmm => hpre m (List.mem_cons_of_mem q hmm))
        hf hpost

/-- C10: the `GetById` scan does not abort when reading or decoding an
individual listed key fails — a failing name only records its error and
the scan continues — so the first listed key whose derived identity
equals the wanted one is returned even past earlier failures; when no
key matches, `ErrNoSuchKey` is returned if every name was read and
decoded cleanly, and the last per-name error is returned instead when
any name failed. -/
theorem c10_getbyid_scan (env : Env) (ks : FSKeystore) (want : PeerID)
    (pre post : List String) (name : String) (sk : PrivKey) (e : Err) :
    (FSKeystore.List ks = pre ++ name :: post →
       (∀ m ∈ pre, isMatch (nameOutcome env ks want m) = false) →
       nameOutcome env ks want name = NameOutcome.matched sk →
       FSKeystore.GetById env ks want = Except.ok sk) ∧
    ((∀ m ∈ FSKeystore.List ks,
        nameOutcome env ks want m = NameOutcome.unmatched) →
       FSKeystore.GetById env ks want = Except.error Err.noSuchKey) ∧
    (FSKeystore.List ks = pre ++ name :: post →
       (∀ m ∈ pre, isMatch (nameOutcome env ks want m) = false) →
       nameOutcome env ks want name = NameOutcome.failed e →
       (∀ m ∈ post, nameOutcome env ks want m = NameOutcome.unmatched) →
       FSKeystore.GetById env ks want = Except.error e) := by
  refine ⟨?_, ?_, ?_⟩
  · intro hl hpre hm
    unfold FSKeystore.GetById
    rw [hl]
    exact getByIdLoop_matched env ks want sk name post pre none hpre hm
  · intro h
    unfold FSKeystore.GetById
    rw [getByIdLoop_all_unmatched env ks want (FSKeystore.List ks) none h]
  · intro hl hpre hf hpost
    unfold FSKeystore.GetById
    rw [hl]
    exact getByIdLoop_failed_last env ks want e name post pre none hpre hf
      hpost

theorem c10_witness :
    FSKeystore.GetById demoEnv demoKs 2 = Except.ok 2 ∧
    FSKeystore.GetById demoEnv demoKs 7 = Except.error (Err.crypto ("bad")) ∧
    FSKeystore.GetById demoEnv { files := [(("x"), [2])] } 7
      = Except.error Err.noSuchKey := by
  have h1 := c10_getbyid_scan demoEnv demoKs 2 [("b")] [("y")] ("x") 2
    Err.noSuchKey
  have h2 := c10_getbyid_scan demoEnv demoKs 7 [] [("x"), ("y")] ("b") 0
    (Err.crypto ("bad"))
  have h3 := c10_getbyid_scan demoEnv { files := [(("x"), [2])] } 7 [] []
    ("") 0 Err.noSuchKey
  exact ⟨h1.1 rfl (by decide) rfl,
         h2.2.2 rfl (by decide) rfl (by decide),
         h3.2.1 (by decide)⟩
